import Mathlib

/-!
Shallow embedding of the BDALab/workbench correlation and covariate tools
(src/tools/correlation.py and src/tools/covariates.py) and proofs about them.

Conventions of the embedding:
* pandas cells are `Option ℚ` (`none` models NaN / a missing value); numeric
  arrays handed to the statistics routines are `List ℚ`.
* Python exceptions are modelled by the structured type `PyError`; fallible
  functions return `Except PyError α`.  A Python f-string error message is
  modelled by the structured data it interpolates (the offending value and
  the enumerated supported set), which is what the message observably names.
* scipy's `pearsonr`, `spearmanr`, `kendalltau` and sklearn's
  `LinearRegression` are external library routines (not part of this
  repository); they enter the embedding as explicit function parameters, so
  every theorem quantifies over them unless a property of the external
  routine is needed, in which case that property is an explicit hypothesis.
* Python `round(float(r), 4)` is modelled by mathematical rounding of the
  rational to 4 decimal places (binary-float representation effects and
  round-half-to-even tie behaviour are not modelled; no claim depends on a
  tie).
-/

namespace Workbench

/-- Structured stand-in for the Python exceptions the embedded code can
raise.  `valueError kind supported` is the `ValueError` raised by
`compute_correlation`, carrying the data its f-string message interpolates:
the offending correlation type and the tuple of supported types.
`notFittedError` is sklearn's exception; it is present so that statements
can compare against it, the embedded code itself never produces it. -/
inductive PyError where
  | valueError (corrType : String) (supported : List String)
  | keyError (key : String)
  | attributeError
  | assertionError
  | broadcastError
  | notFittedError
deriving DecidableEq, Repr

/-- The type of a scipy bivariate statistic: two numeric sequences in, a
pair (coefficient, p-value) out. -/
abbrev StatFn := List ℚ → List ℚ → ℚ × ℚ

/-- Python `str.lower()`, for the ASCII strings this code handles:
per-character lower-casing.  (Lean's own `String.toLower` is the same map
but is stated over positions and does not reduce definitionally.) -/
def pyLower (s : String) : String := ⟨s.data.map Char.toLower⟩

/-- The dict `mapping = {"pearson": pearsonr, "spearman": spearmanr,
"kendall": kendalltau}` of `compute_correlation`, as a lookup. -/
def corrMapping (pearsonr spearmanr kendalltau : StatFn) (k : String) : Option StatFn :=
  if k = "pearson" then some pearsonr
  else if k = "spearman" then some spearmanr
  else if k = "kendall" then some kendalltau
  else none

/-- Embedding of `compute_correlation` (src/tools/correlation.py).  The
three scipy routines are passed in as parameters.  Mirrors the source: if
`corr_type` is not among `supported_types` a `ValueError` naming the type
and the supported tuple is raised; otherwise the statistic selected by
`mapping[corr_type.lower()]` is applied (a key miss there is a `KeyError`,
reachable only with a non-default `supported_types`). -/
def compute_correlation (pearsonr spearmanr kendalltau : StatFn)
    (x y : List ℚ) (corr_type : String := "spearman")
    (supported_types : List String := ["pearson", "spearman", "kendall"]) :
    Except PyError (ℚ × ℚ) :=
  if corr_type ∈ supported_types then
    match corrMapping pearsonr spearmanr kendalltau (pyLower corr_type) with
    | some f => .ok (f x y)
    | none => .error (.keyError (pyLower corr_type))
  else
    .error (.valueError corr_type supported_types)

/-- A pandas cell: `none` is NaN (`isnull`). -/
abbrev Val := Option ℚ

/-- Embedding of the pairwise NaN filtering step of `assess_correlation`:
`with_nans = x.isnull() | y.isnull()`, then both sequences are indexed by
`logical_not(with_nans)`.  Positions where both values are present survive,
in order. -/
def pairwiseFilter (xs ys : List Val) : List ℚ × List ℚ :=
  let kept := (List.zip xs ys).filterMap (fun p =>
    match p with
    | (some a, some b) => some (a, b)
    | _ => none)
  (kept.map Prod.fst, kept.map Prod.snd)

/-- The aligned index positions at which both sequences carry a value.
Used only to state, independently of `pairwiseFilter`'s recursion, which
positions the filter keeps. -/
def keptIdx (xs ys : List Val) : List ℕ :=
  (List.range (min xs.length ys.length)).filter
    (fun i => (xs.getD i none).isSome && (ys.getD i none).isSome)

/-- Concrete stand-ins for the three scipy statistics, used to instantiate
theorems at closed inputs.  Each returns the head of its first argument and
a distinguishing constant. -/
def pear0 : StatFn := fun x _ => (x.headD 0, 10)

def spear0 : StatFn := fun x _ => (x.headD 0, 20)

def kend0 : StatFn := fun x _ => (x.headD 0, 30)

/-- A pandas DataFrame with possibly-missing numeric cells: ordered named
columns. -/
structure VTable where
  cols : List (String × List Val)
deriving DecidableEq

/-- Column selection `df[name]`: the first column of that name (a miss is
a KeyError at the use site). -/
def VTable.lookup (t : VTable) (name : String) : Option (List Val) :=
  (t.cols.find? (fun c => c.1 = name)).map (fun c => c.2)

/-- One entry of `computation_settings` in `assess_correlation`. -/
structure Setting where
  scale : String
  field_name : String
  correlation : List String
deriving DecidableEq

/-- A cell of a results row: the "feature" field holds a string, the
"r (...)" and "p (...)" fields hold numbers. -/
inductive Cell where
  | str (s : String)
  | num (q : ℚ)
deriving DecidableEq

/-- One results row: a Python dict in insertion order. -/
abbrev Row := List (String × Cell)

/-- Python dict update `d[key] = v`: replace in place when the key is
present, append otherwise. -/
def dictUpdate (row : Row) (key : String) (v : Cell) : Row :=
  if row.any (fun p => p.1 = key) then
    row.map (fun p => if p.1 = key then (key, v) else p)
  else row ++ [(key, v)]

/-- Python `round(float(r), 4)`: rounding to 4 decimal places (see the
header note on float ties). -/
def round4 (q : ℚ) : ℚ := (round (q * 10000) : ℤ) / 10000

/-- The inner metric loop of `assess_correlation`: for each requested kind
in order, compute the correlation and store `r (kind)` and `p (kind)`
rounded to 4 decimal places into the row. -/
def addCorrEntries (pearsonr spearmanr kendalltau : StatFn) (featData clinData : List ℚ) :
    Row → List String → Except PyError Row
  | row, [] => .ok row
  | row, k :: rest => do
    let rp ← compute_correlation pearsonr spearmanr kendalltau featData clinData k
    addCorrEntries pearsonr spearmanr kendalltau featData clinData
      (dictUpdate (dictUpdate row ("r (" ++ k ++ ")") (.num (round4 rp.1)))
        ("p (" ++ k ++ ")") (.num (round4 rp.2))) rest

/-- The per-feature body of `assess_correlation`: select the target scale
column, drop positions with a missing value on either side, then compute
every requested correlation into one row keyed by the feature name. -/
def featureRow (pearsonr spearmanr kendalltau : StatFn) (dfClin : VTable) (s : Setting)
    (feat : String × List Val) : Except PyError Row :=
  match dfClin.lookup s.field_name with
  | none => .error (.keyError s.field_name)
  | some clinData =>
    let fc := pairwiseFilter feat.2 clinData
    addCorrEntries pearsonr spearmanr kendalltau fc.1 fc.2 [("feature", .str feat.1)]
      s.correlation

/-- One result table of `assess_correlation`: one row per feature column,
in the feature table's column order. -/
def settingTable (pearsonr spearmanr kendalltau : StatFn) (dfFeat dfClin : VTable)
    (s : Setting) : Except PyError (List Row) :=
  dfFeat.cols.mapM (featureRow pearsonr spearmanr kendalltau dfClin s)

/-- What `assess_correlation` computes: the tables it returns and the
sheet names under which it saves them. -/
structure AssessOutput where
  tables : List (List Row)
  sheets : List String
deriving DecidableEq

/-- Embedding of `assess_correlation` (src/tools/correlation.py): one
result table and one sheet name per setting, in the order of
`computation_settings`.  Saving to Excel is the I/O boundary; the sheet
names handed to `save_to_excel_multi` are the `sheets` component. -/
def assess_correlation_run (pearsonr spearmanr kendalltau : StatFn)
    (dfFeat dfClin : VTable) (settings : List Setting) : Except PyError AssessOutput := do
  let tables ← settings.mapM (settingTable pearsonr spearmanr kendalltau dfFeat dfClin)
  .ok ⟨tables, settings.map (fun s => s.scale)⟩

/-- The value `assess_correlation` returns to its caller: the list of
result tables.  The sheet names go only to the export routine. -/
def assess_correlation (pearsonr spearmanr kendalltau : StatFn)
    (dfFeat dfClin : VTable) (settings : List Setting) :
    Except PyError (List (List Row)) :=
  (assess_correlation_run pearsonr spearmanr kendalltau dfFeat dfClin settings).map
    (fun o => o.tables)

/-- The statistic `compute_correlation` dispatches to for a supported
kind (statement helper). -/
def statFor (pearsonr spearmanr kendalltau : StatFn) (k : String) : StatFn :=
  if k = "pearson" then pearsonr else if k = "spearman" then spearmanr else kendalltau

/-- The row shape the specification describes: the feature identifier
first, then `r (kind)` and `p (kind)` fields, rounded to 4 decimal
places, for each requested kind in the order given. -/
def specRow (pearsonr spearmanr kendalltau : StatFn) (dfClin : VTable) (s : Setting)
    (feat : String × List Val) : Row :=
  let clinData := (dfClin.lookup s.field_name).getD []
  let fc := pairwiseFilter feat.2 clinData
  ("feature", .str feat.1) ::
    (s.correlation.map (fun k =>
      let rp := statFor pearsonr spearmanr kendalltau k fc.1 fc.2
      [("r (" ++ k ++ ")", .num (round4 rp.1)),
       ("p (" ++ k ++ ")", .num (round4 rp.2))])).flatten

/-- A fitted linear model from sklearn: maps one covariate row to one
prediction. -/
abbrev Model := List ℚ → ℚ

/-- The fitting routine of sklearn's `LinearRegression` (external to this
repository): covariate matrix (as rows) and target column in, fitted
model out.  Theorems quantify over it; where a property of least squares
is needed (a perfect fit predicts the target exactly) it appears as an
explicit hypothesis. -/
abbrev FitFn := List (List ℚ) → List ℚ → Model

/-- A pandas DataFrame of plain numeric cells, as used by
`CovariateController` (which never inspects missingness). -/
structure QTable where
  cols : List (String × List ℚ)
deriving DecidableEq

/-- Column selection `df[name]`. -/
def QTable.lookup (t : QTable) (name : String) : Option (List ℚ) :=
  (t.cols.find? (fun c => c.1 = name)).map (fun c => c.2)

/-- `df.shape[0]`: the row count (the shared length of the columns; 0 for
a table with no columns). -/
def QTable.numRows (t : QTable) : ℕ :=
  match t.cols with
  | [] => 0
  | c :: _ => c.2.length

/-- Row `i` of `df.values`. -/
def QTable.row (t : QTable) (i : ℕ) : List ℚ :=
  t.cols.map (fun c => c.2.getD i 0)

/-- `df.values` as a list of rows. -/
def QTable.rows (t : QTable) : List (List ℚ) :=
  (List.range t.numRows).map t.row

/-- `x[c] = vals`: replace the values of every column named `name`. -/
def QTable.setCol (t : QTable) (name : String) (vals : List ℚ) : QTable :=
  ⟨t.cols.map (fun c => if c.1 = name then (c.1, vals) else c)⟩

/-- Concrete fitting routine for closed instances: the fitted model
predicts the first covariate of a row, a perfect fit whenever the target
is the first covariate column. -/
def fit0 : FitFn := fun _ _ row => row.headD 0

/-- The state of a `CovariateController` object (src/tools/covariates.py):
the `inline` flag from `__init__` and the attributes `regressors` (empty
dict until fitted) and `covariates` (None until `fit` stores the covariate
table). -/
structure CCState where
  inline : Bool
  regressors : List (String × Model)
  covariates : Option QTable

/-- `CovariateController(inline)`. -/
def CCState.init (inl : Bool) : CCState := ⟨inl, [], none⟩

/-- Embedding of `CovariateController.fit`.  The assertion
`X.shape[0] == y.shape[0]` fails as an AssertionError before any model is
fitted, leaving the object untouched; otherwise one regressor per column
of X is fitted on `(y.values, X[c].values)` and `y` is stored as the
covariates.  Returns (call outcome, object state after the call). -/
def CCState.fit (fitF : FitFn) (st : CCState) (X y : QTable) :
    Except PyError Unit × CCState :=
  if X.numRows = y.numRows then
    (.ok (), { st with
      regressors := X.cols.map (fun c => (c.1, fitF y.rows c.2)),
      covariates := some y })
  else
    (.error .assertionError, st)

/-- One iteration of the `transform` loop, for column name `c`:
`x[c] = x[c].values - self.regressors.get(c).predict(self.covariates.values)`.
A missing regressor (`dict.get` returns None) or unset covariates make the
attribute access on None an AttributeError; mismatched lengths are the
numpy broadcast ValueError (length-1 broadcasting is not modelled; no
claim involves it). -/
def residualizeStep (regressors : List (String × Model)) (covariates : Option QTable)
    (x : QTable) (c : String) : Except PyError QTable :=
  match regressors.find? (fun p => p.1 = c) with
  | none => .error .attributeError
  | some m =>
    match covariates with
    | none => .error .attributeError
    | some cov =>
      let vals := (x.lookup c).getD []
      let preds := cov.rows.map m.2
      if vals.length = preds.length then
        .ok (x.setCol c (List.zipWith (fun a b => a - b) vals preds))
      else
        .error .broadcastError

/-- The `for c in x.columns` loop of `transform`, threading the table; an
exception aborts the loop, leaving the columns already written. -/
def residualizeLoop (regressors : List (String × Model)) (covariates : Option QTable) :
    List String → QTable → QTable × Option PyError
  | [], x => (x, none)
  | c :: rest, x =>
    match residualizeStep regressors covariates x c with
    | .error e => (x, some e)
    | .ok x2 => residualizeLoop regressors covariates rest x2

/-- Embedding of `CovariateController.transform`.  The first component is
the call's outcome (the returned table or the exception); the second is
the caller's table after the call: `X` itself when `inline` is false (the
loop then works on `X.copy()`), the threaded table when `inline` is
true. -/
def CCState.transform (st : CCState) (X : QTable) :
    Except PyError QTable × QTable :=
  let r := residualizeLoop st.regressors st.covariates (X.cols.map (fun c => c.1)) X
  (match r.2 with
   | some e => .error e
   | none => .ok r.1,
   if st.inline then r.1 else X)

lemma keptIdx_cons (x y : Val) (xs ys : List Val) :
    keptIdx (x :: xs) (y :: ys) =
      if x.isSome && y.isSome then (0 : ℕ) :: (keptIdx xs ys).map Nat.succ
      else (keptIdx xs ys).map Nat.succ := by
  unfold keptIdx
  rw [show min (x :: xs).length (y :: ys).length = min xs.length ys.length + 1 by
        simp [Nat.succ_min_succ]]
  rw [List.range_succ_eq_map, List.filter_cons]
  simp only [List.getD_cons_zero, List.filter_map, List.getD_cons_succ, Function.comp_def]

lemma map_getD_cons_succ (z : Val) (zs : List Val) (l : List ℕ) :
    l.map ((fun i => ((z :: zs).getD i none).getD 0) ∘ Nat.succ) =
      l.map (fun i => (zs.getD i none).getD 0) :=
  List.map_congr_left (fun a _ => by simp [List.getD_cons_succ])

lemma pairwiseFilter_eq_keptIdx (xs ys : List Val) :
    pairwiseFilter xs ys =
      ((keptIdx xs ys).map (fun i => (xs.getD i none).getD 0),
       (keptIdx xs ys).map (fun i => (ys.getD i none).getD 0)) := by
  induction xs generalizing ys with
  | nil => simp [pairwiseFilter, keptIdx]
  | cons x xs ih =>
    cases ys with
    | nil => simp [pairwiseFilter, keptIdx]
    | cons y ys =>
      rw [keptIdx_cons]
      have ih2 := ih ys
      simp only [pairwiseFilter] at ih2
      rw [Prod.ext_iff] at ih2
      match x, y with
      | some a, some b =>
        simp only [pairwiseFilter, List.zip_cons_cons, List.filterMap_cons] at ih2 ⊢
        simp only [Option.isSome_some, Bool.and_self, if_true, List.map_cons,
          List.getD_cons_zero, Option.getD_some, List.map_map, map_getD_cons_succ]
        rw [Prod.ext_iff]
        simpa using ih2
      | none, _ =>
        simp only [pairwiseFilter, List.zip_cons_cons, List.filterMap_cons] at ih2 ⊢
        simp only [Option.isSome_none, Bool.false_and, Bool.false_eq_true, if_false,
          List.map_map, map_getD_cons_succ]
        rw [Prod.ext_iff]
        simpa using ih2
      | some a, none =>
        simp only [pairwiseFilter, List.zip_cons_cons, List.filterMap_cons] at ih2 ⊢
        simp only [Option.isSome_none, Option.isSome_some, Bool.and_false,
          Bool.false_eq_true, if_false, List.map_map, map_getD_cons_succ]
        rw [Prod.ext_iff]
        simpa using ih2

lemma rkey_inj {k1 k2 : String} (h : "r (" ++ k1 ++ ")" = "r (" ++ k2 ++ ")") : k1 = k2 := by
  have h2 : ("r (" ++ k1 ++ ")").data = ("r (" ++ k2 ++ ")").data := by rw [h]
  simp [String.data_append] at h2
  exact String.ext h2

lemma pkey_inj {k1 k2 : String} (h : "p (" ++ k1 ++ ")" = "p (" ++ k2 ++ ")") : k1 = k2 := by
  have h2 : ("p (" ++ k1 ++ ")").data = ("p (" ++ k2 ++ ")").data := by rw [h]
  simp [String.data_append] at h2
  exact String.ext h2

lemma rkey_ne_pkey (k1 k2 : String) : "r (" ++ k1 ++ ")" ≠ "p (" ++ k2 ++ ")" := by
  intro h
  have h2 : ("r (" ++ k1 ++ ")").data = ("p (" ++ k2 ++ ")").data := by rw [h]
  simp [String.data_append] at h2

lemma rkey_ne_feature (k : String) : "r (" ++ k ++ ")" ≠ "feature" := by
  intro h
  have h2 : ("r (" ++ k ++ ")").data = "feature".data := by rw [h]
  simp [String.data_append] at h2

lemma pkey_ne_feature (k : String) : "p (" ++ k ++ ")" ≠ "feature" := by
  intro h
  have h2 : ("p (" ++ k ++ ")").data = "feature".data := by rw [h]
  simp [String.data_append] at h2

lemma dictUpdate_fresh (row : Row) (key : String) (v : Cell)
    (h : ∀ p ∈ row, p.1 ≠ key) : dictUpdate row key v = row ++ [(key, v)] := by
  have hany : row.any (fun p => p.1 = key) = false := by
    rw [List.any_eq_false]
    intro p hp
    simpa using h p hp
  simp [dictUpdate, hany]

lemma compute_correlation_supported (pearsonr spearmanr kendalltau : StatFn)
    (x y : List ℚ) (k : String)
    (h : k ∈ (["pearson", "spearman", "kendall"] : List String)) :
    compute_correlation pearsonr spearmanr kendalltau x y k =
      .ok (statFor pearsonr spearmanr kendalltau k x y) := by
  fin_cases h <;>
    · simp [compute_correlation, corrMapping, statFor]
      rfl

lemma mapM_ok_of_forall {α β : Type} (f : α → Except PyError β) (g : α → β) :
    ∀ l : List α, (∀ a ∈ l, f a = .ok (g a)) → l.mapM f = .ok (l.map g) := by
  intro l
  induction l with
  | nil => intro _; rfl
  | cons a l ih =>
    intro h
    rw [List.mapM_cons, h a (by simp), ih (fun b hb => h b (by simp [hb]))]
    rfl

lemma addCorrEntries_eq (pearsonr spearmanr kendalltau : StatFn) (featData clinData : List ℚ) :
    ∀ (kinds : List String) (row : Row),
      kinds.Nodup →
      (∀ k ∈ kinds, k ∈ (["pearson", "spearman", "kendall"] : List String)) →
      (∀ k ∈ kinds, ∀ p ∈ row, p.1 ≠ "r (" ++ k ++ ")" ∧ p.1 ≠ "p (" ++ k ++ ")") →
      addCorrEntries pearsonr spearmanr kendalltau featData clinData row kinds =
        .ok (row ++ (kinds.map (fun k =>
          let rp := statFor pearsonr spearmanr kendalltau k featData clinData
          [("r (" ++ k ++ ")", .num (round4 rp.1)),
           ("p (" ++ k ++ ")", .num (round4 rp.2))])).flatten) := by
  intro kinds
  induction kinds with
  | nil => intro row _ _ _; simp [addCorrEntries]
  | cons k rest ih =>
    intro row hnd hsup hfresh
    have hk : k ∈ (["pearson", "spearman", "kendall"] : List String) := hsup k (by simp)
    rw [addCorrEntries,
      compute_correlation_supported pearsonr spearmanr kendalltau featData clinData k hk]
    have hfr : ∀ p ∈ row, p.1 ≠ "r (" ++ k ++ ")" :=
      fun p hp => (hfresh k (by simp) p hp).1
    have hfp : ∀ p ∈ row ++ [("r (" ++ k ++ ")", Cell.num
        (round4 (statFor pearsonr spearmanr kendalltau k featData clinData).1))],
        p.1 ≠ "p (" ++ k ++ ")" := by
      intro p hp
      rcases List.mem_append.mp hp with hp | hp
      · exact (hfresh k (by simp) p hp).2
      · simp only [List.mem_singleton] at hp
        subst hp
        exact rkey_ne_pkey k k
    have hbind : ∀ rp : ℚ × ℚ,
        (Except.ok rp >>= fun rp =>
          addCorrEntries pearsonr spearmanr kendalltau featData clinData
            (dictUpdate (dictUpdate row ("r (" ++ k ++ ")") (.num (round4 rp.1)))
              ("p (" ++ k ++ ")") (.num (round4 rp.2))) rest) =
          addCorrEntries pearsonr spearmanr kendalltau featData clinData
            (dictUpdate (dictUpdate row ("r (" ++ k ++ ")") (.num (round4 rp.1)))
              ("p (" ++ k ++ ")") (.num (round4 rp.2))) rest := by
      intro rp
      rfl
    rw [hbind]
    rw [dictUpdate_fresh row _ _ hfr, dictUpdate_fresh _ _ _ hfp]
    have hrow2 : ∀ k2 ∈ rest, ∀ p ∈ (row ++ [("r (" ++ k ++ ")", Cell.num
        (round4 (statFor pearsonr spearmanr kendalltau k featData clinData).1))]) ++
          [("p (" ++ k ++ ")", Cell.num
            (round4 (statFor pearsonr spearmanr kendalltau k featData clinData).2))],
        p.1 ≠ "r (" ++ k2 ++ ")" ∧ p.1 ≠ "p (" ++ k2 ++ ")" := by
      intro k2 hk2 p hp
      have hkk2 : k ≠ k2 := by
        intro heq
        subst heq
        exact (List.nodup_cons.mp hnd).1 hk2
      rcases List.mem_append.mp hp with hp | hp
      · rcases List.mem_append.mp hp with hp | hp
        · exact hfresh k2 (by simp [hk2]) p hp
        · simp only [List.mem_singleton] at hp
          subst hp
          exact ⟨fun h => hkk2 (rkey_inj h), fun h => rkey_ne_pkey k k2 h⟩
      · simp only [List.mem_singleton] at hp
        subst hp
        refine ⟨fun h => rkey_ne_pkey k2 k h.symm, fun h => hkk2 (pkey_inj h)⟩
    rw [ih _ (List.nodup_cons.mp hnd).2 (fun k2 hk2 => hsup k2 (by simp [hk2])) hrow2]
    simp [List.append_assoc]

lemma featureRow_eq (pearsonr spearmanr kendalltau : StatFn) (dfClin : VTable) (s : Setting)
    (feat : String × List Val)
    (hfield : (dfClin.lookup s.field_name).isSome = true)
    (hsup : ∀ k ∈ s.correlation, k ∈ (["pearson", "spearman", "kendall"] : List String))
    (hnd : s.correlation.Nodup) :
    featureRow pearsonr spearmanr kendalltau dfClin s feat =
      .ok (specRow pearsonr spearmanr kendalltau dfClin s feat) := by
  obtain ⟨clinData, hcd⟩ := Option.isSome_iff_exists.mp hfield
  have hfresh : ∀ k ∈ s.correlation, ∀ p ∈ ([("feature", Cell.str feat.1)] : Row),
      p.1 ≠ "r (" ++ k ++ ")" ∧ p.1 ≠ "p (" ++ k ++ ")" := by
    intro k _ p hp
    simp only [List.mem_singleton] at hp
    subst hp
    exact ⟨fun h => rkey_ne_feature k h.symm, fun h => pkey_ne_feature k h.symm⟩
  rw [featureRow, hcd]
  dsimp only
  rw [addCorrEntries_eq pearsonr spearmanr kendalltau _ _ s.correlation _ hnd hsup hfresh]
  rw [specRow, hcd]
  rfl

lemma settingTable_eq (pearsonr spearmanr kendalltau : StatFn) (dfFeat dfClin : VTable)
    (s : Setting)
    (hfield : (dfClin.lookup s.field_name).isSome = true)
    (hsup : ∀ k ∈ s.correlation, k ∈ (["pearson", "spearman", "kendall"] : List String))
    (hnd : s.correlation.Nodup) :
    settingTable pearsonr spearmanr kendalltau dfFeat dfClin s =
      .ok (dfFeat.cols.map (specRow pearsonr spearmanr kendalltau dfClin s)) :=
  mapM_ok_of_forall _ _ dfFeat.cols
    (fun feat _ => featureRow_eq pearsonr spearmanr kendalltau dfClin s feat hfield hsup hnd)

lemma assess_run_eq (pearsonr spearmanr kendalltau : StatFn) (dfFeat dfClin : VTable)
    (settings : List Setting)
    (hfield : ∀ s ∈ settings, (dfClin.lookup s.field_name).isSome = true)
    (hsup : ∀ s ∈ settings, ∀ k ∈ s.correlation,
      k ∈ (["pearson", "spearman", "kendall"] : List String))
    (hnd : ∀ s ∈ settings, s.correlation.Nodup) :
    assess_correlation_run pearsonr spearmanr kendalltau dfFeat dfClin settings =
      .ok ⟨settings.map (fun s =>
             dfFeat.cols.map (specRow pearsonr spearmanr kendalltau dfClin s)),
           settings.map (fun s => s.scale)⟩ := by
  rw [assess_correlation_run,
    mapM_ok_of_forall _ _ settings (fun s hs =>
      settingTable_eq pearsonr spearmanr kendalltau dfFeat dfClin s
        (hfield s hs) (hsup s hs) (hnd s hs))]
  rfl

/-- C1: with the default `supported_types`, `compute_correlation` raises,
for any kind outside {pearson, spearman, kendall}, a ValueError carrying
the offending kind and exactly the supported set, and for each of the
three supported kinds it returns the value of the corresponding scipy
statistic (pearsonr, spearmanr, kendalltau) without raising. -/
theorem compute_correlation_dispatch (pearsonr spearmanr kendalltau : StatFn)
    (x y : List ℚ) (kind : String) (hlen : x.length = y.length) :
    (kind ∉ (["pearson", "spearman", "kendall"] : List String) →
      compute_correlation pearsonr spearmanr kendalltau x y kind =
        .error (.valueError kind ["pearson", "spearman", "kendall"])) ∧
    compute_correlation pearsonr spearmanr kendalltau x y "pearson" = .ok (pearsonr x y) ∧
    compute_correlation pearsonr spearmanr kendalltau x y "spearman" = .ok (spearmanr x y) ∧
    compute_correlation pearsonr spearmanr kendalltau x y "kendall" = .ok (kendalltau x y) := by
  refine ⟨fun h => by simp [compute_correlation, h], ?_, ?_, ?_⟩ <;>
    · simp [compute_correlation, corrMapping]
      rfl

theorem compute_correlation_dispatch_witness :
    compute_correlation pear0 spear0 kend0 [1, 2] [3, 4] "cosine" =
      .error (.valueError "cosine" ["pearson", "spearman", "kendall"]) :=
  (compute_correlation_dispatch pear0 spear0 kend0 [1, 2] [3, 4] "cosine" (by decide)).1
    (by decide)

/-- C2: the pairwise NaN filter of `assess_correlation` keeps exactly the
aligned positions at which neither sequence is missing (a position is
dropped when either side is missing), preserving their order; when every
aligned position is missing on at least one side it yields two empty
sequences; and on x = [1, NaN, 3, 4], y = [1, 2, NaN, 4] it yields
([1, 4], [1, 4]). -/
theorem pairwiseFilter_spec (xs ys : List Val) :
    pairwiseFilter xs ys =
      ((keptIdx xs ys).map (fun i => (xs.getD i none).getD 0),
       (keptIdx xs ys).map (fun i => (ys.getD i none).getD 0)) ∧
    ((∀ i < min xs.length ys.length, xs.getD i none = none ∨ ys.getD i none = none) →
      pairwiseFilter xs ys = ([], [])) ∧
    pairwiseFilter [some 1, none, some 3, some 4] [some 1, some 2, none, some 4] =
      ([1, 4], [1, 4]) := by
  refine ⟨pairwiseFilter_eq_keptIdx xs ys, fun h => ?_, by decide⟩
  have hempty : keptIdx xs ys = [] := by
    rw [keptIdx, List.filter_eq_nil_iff]
    intro i hi
    rcases h i (List.mem_range.mp hi) with hc | hc <;>
      simp only [List.getD_eq_getElem?_getD] at hc <;> simp [hc]
  rw [pairwiseFilter_eq_keptIdx, hempty]
  rfl

theorem pairwiseFilter_spec_witness :
    pairwiseFilter [none, some 1] [some 2, none] = ([], []) :=
  (pairwiseFilter_spec [none, some 1] [some 2, none]).2.1 (by decide)

/-- C10: when the metric kind argument is omitted, `compute_correlation`
does not fail but behaves exactly as with kind = "spearman": the default
value of `corr_type` is "spearman", so the call returns the spearman
statistic. -/
theorem compute_correlation_default_kind (pearsonr spearmanr kendalltau : StatFn)
    (x y : List ℚ) (hlen : x.length = y.length) :
    compute_correlation pearsonr spearmanr kendalltau x y =
        compute_correlation pearsonr spearmanr kendalltau x y "spearman" ∧
    compute_correlation pearsonr spearmanr kendalltau x y = .ok (spearmanr x y) := by
  refine ⟨rfl, ?_⟩
  simp [compute_correlation, corrMapping]
  rfl

theorem compute_correlation_default_kind_witness :
    compute_correlation pear0 spear0 kend0 [1, 2] [3, 4] =
      compute_correlation pear0 spear0 kend0 [1, 2] [3, 4] "spearman" :=
  (compute_correlation_default_kind pear0 spear0 kend0 [1, 2] [3, 4] (by decide)).1

/-- C3: when every metric computation succeeds (every requested kind is
supported, every target field resolves, and each setting's kinds are
distinct), `assess_correlation` produces one result table and one sheet
name per setting, in settings order; each table has one row per feature
column in the feature table's column order, and each row is the feature
identifier followed by the `r (kind)` and `p (kind)` fields, rounded to 4
decimal places, for each requested kind in the order given. -/
theorem assess_correlation_tables_shape (pearsonr spearmanr kendalltau : StatFn)
    (dfFeat dfClin : VTable) (settings : List Setting)
    (hfield : ∀ s ∈ settings, (dfClin.lookup s.field_name).isSome = true)
    (hsup : ∀ s ∈ settings, ∀ k ∈ s.correlation,
      k ∈ (["pearson", "spearman", "kendall"] : List String))
    (hnd : ∀ s ∈ settings, s.correlation.Nodup) :
    assess_correlation_run pearsonr spearmanr kendalltau dfFeat dfClin settings =
      .ok ⟨settings.map (fun s =>
             dfFeat.cols.map (specRow pearsonr spearmanr kendalltau dfClin s)),
           settings.map (fun s => s.scale)⟩ :=
  assess_run_eq pearsonr spearmanr kendalltau dfFeat dfClin settings hfield hsup hnd

theorem assess_correlation_tables_shape_witness :
    assess_correlation_run pear0 spear0 kend0 ⟨[("f1", [some 1, some 2])]⟩
        ⟨[("t", [some 3, none])]⟩ [⟨"sc", "t", ["pearson"]⟩] =
      .ok ⟨[[[("feature", .str "f1"), ("r (pearson)", .num 1), ("p (pearson)", .num 10)]]],
           ["sc"]⟩ := by
  rw [assess_correlation_tables_shape pear0 spear0 kend0 ⟨[("f1", [some 1, some 2])]⟩
    ⟨[("t", [some 3, none])]⟩ [⟨"sc", "t", ["pearson"]⟩] (by decide) (by decide) (by decide)]
  simp [specRow, statFor, pairwiseFilter, VTable.lookup, List.find?, pear0]
  norm_num [round4]

/-- C4 as stated is false: the value `assess_correlation` returns is the
bare list of result tables, with no scale identifiers in it.  Two runs
whose settings differ only in the `scale` identifier return equal values,
which a mapping keyed by scale could not do; the scale only reaches the
sheet names of the saved workbook. -/
theorem assess_correlation_not_scale_keyed :
    assess_correlation pear0 spear0 kend0 ⟨[("f1", [some 1, some 2])]⟩
        ⟨[("t", [some 3, none])]⟩ [⟨"A", "t", ["pearson"]⟩] =
      assess_correlation pear0 spear0 kend0 ⟨[("f1", [some 1, some 2])]⟩
        ⟨[("t", [some 3, none])]⟩ [⟨"B", "t", ["pearson"]⟩] ∧
    ("A" : String) ≠ "B" :=
  ⟨rfl, by decide⟩

/-- C4 amended: for every valid input, `assess_correlation` returns the
list of correlation result tables, one per setting and in settings order
(each the rows computed for that setting's scale); the settings' scale
identifiers are emitted in the same order, but only as the sheet names
handed to the export step, not inside the returned value. -/
theorem assess_correlation_returns_table_list (pearsonr spearmanr kendalltau : StatFn)
    (dfFeat dfClin : VTable) (settings : List Setting)
    (hfield : ∀ s ∈ settings, (dfClin.lookup s.field_name).isSome = true)
    (hsup : ∀ s ∈ settings, ∀ k ∈ s.correlation,
      k ∈ (["pearson", "spearman", "kendall"] : List String))
    (hnd : ∀ s ∈ settings, s.correlation.Nodup) :
    assess_correlation pearsonr spearmanr kendalltau dfFeat dfClin settings =
      .ok (settings.map (fun s =>
        dfFeat.cols.map (specRow pearsonr spearmanr kendalltau dfClin s))) ∧
    (assess_correlation_run pearsonr spearmanr kendalltau dfFeat dfClin settings).map
        (fun o => o.sheets) =
      .ok (settings.map (fun s => s.scale)) := by
  have h := assess_run_eq pearsonr spearmanr kendalltau dfFeat dfClin settings hfield hsup hnd
  constructor
  · rw [assess_correlation, h]
    rfl
  · rw [h]
    rfl

theorem assess_correlation_returns_table_list_witness :
    assess_correlation pear0 spear0 kend0 ⟨[("f1", [some 1, some 2])]⟩
        ⟨[("t", [some 3, none])]⟩ [⟨"sc", "t", ["pearson"]⟩] =
      .ok [[[("feature", .str "f1"), ("r (pearson)", .num 1), ("p (pearson)", .num 10)]]] := by
  rw [(assess_correlation_returns_table_list pear0 spear0 kend0 ⟨[("f1", [some 1, some 2])]⟩
    ⟨[("t", [some 3, none])]⟩ [⟨"sc", "t", ["pearson"]⟩] (by decide) (by decide) (by decide)).1]
  simp [specRow, statFor, pairwiseFilter, VTable.lookup, List.find?, pear0]
  norm_num [round4]

lemma transform_snd_of_not_inline (st : CCState) (X : QTable) (h : st.inline = false) :
    (st.transform X).2 = X := by
  simp [CCState.transform, h]

/-- C6: `fit` called with mismatching row counts raises the shape
assertion before fitting any per-feature model, and the transformer
object (its regressor dict and stored covariates) is unchanged by the
failed call. -/
theorem fit_shape_mismatch (fitF : FitFn) (st : CCState) (X y : QTable)
    (h : X.numRows ≠ y.numRows) :
    CCState.fit fitF st X y = (.error .assertionError, st) := by
  rw [CCState.fit, if_neg h]

theorem fit_shape_mismatch_witness :
    CCState.fit fit0 (CCState.init false) ⟨[("f", [1])]⟩ ⟨[("g", [1, 2])]⟩ =
      (.error .assertionError, CCState.init false) :=
  fit_shape_mismatch fit0 (CCState.init false) ⟨[("f", [1])]⟩ ⟨[("g", [1, 2])]⟩ (by decide)

/-- C7: with `inline = false` (the default) `transform` leaves the
caller's table untouched (it works on a copy); with `inline = true` the
caller's table after a successful call is exactly the returned table. -/
theorem transform_inline_semantics (st : CCState) (X : QTable) :
    (st.inline = false → (st.transform X).2 = X) ∧
    (st.inline = true → ∀ t, (st.transform X).1 = .ok t → (st.transform X).2 = t) := by
  refine ⟨transform_snd_of_not_inline st X, ?_⟩
  intro h t ht
  simp only [CCState.transform, h, if_true] at ht ⊢
  rcases hloop : residualizeLoop st.regressors st.covariates
    (X.cols.map (fun c => c.1)) X with ⟨x2, e?⟩
  rw [hloop] at ht ⊢
  cases e? with
  | some e => simp at ht
  | none => simpa using ht

theorem transform_inline_semantics_witness :
    ((CCState.init false).transform ⟨[("f", [1])]⟩).2 = ⟨[("f", [1])]⟩ ∧
    (((CCState.fit fit0 (CCState.init true) ⟨[("f", [])]⟩ ⟨[("f", [])]⟩).2).transform
        ⟨[("f", [])]⟩).2 = ⟨[("f", [])]⟩ :=
  ⟨(transform_inline_semantics (CCState.init false) ⟨[("f", [1])]⟩).1 rfl,
   (transform_inline_semantics
     ((CCState.fit fit0 (CCState.init true) ⟨[("f", [])]⟩ ⟨[("f", [])]⟩).2)
     ⟨[("f", [])]⟩).2 rfl ⟨[("f", [])]⟩ rfl⟩

/-- C9: on a state with `inline = false` the caller's table is unchanged
by `transform`, so calling `transform` again on what the caller holds
yields the identical outcome and table: repetition is idempotent given
the fixed stored covariates (the fitted state is read-only for
`transform`). -/
theorem transform_repeat_deterministic (st : CCState) (X : QTable) (h : st.inline = false) :
    (st.transform ((st.transform X).2)).1 = (st.transform X).1 ∧
    (st.transform ((st.transform X).2)).2 = (st.transform X).2 := by
  rw [transform_snd_of_not_inline st X h]
  exact ⟨rfl, transform_snd_of_not_inline st X h⟩

theorem transform_repeat_deterministic_witness :
    ((CCState.init false).transform (((CCState.init false).transform ⟨[("f", [1])]⟩).2)).1 =
      ((CCState.init false).transform ⟨[("f", [1])]⟩).1 :=
  (transform_repeat_deterministic (CCState.init false) ⟨[("f", [1])]⟩ rfl).1

lemma residualizeLoop_error_of_missing (regs : List (String × Model)) (covs : Option QTable) :
    ∀ (names : List String) (x : QTable) (c : String), c ∈ names →
      regs.find? (fun p => p.1 = c) = none →
      ∃ e, (residualizeLoop regs covs names x).2 = some e := by
  intro names
  induction names with
  | nil =>
    intro x c hc _
    exact absurd hc (List.not_mem_nil c)
  | cons n rest ih =>
    intro x c hc hmiss
    cases hstep : residualizeStep regs covs x n with
    | error e =>
      rw [residualizeLoop, hstep]
      exact ⟨e, rfl⟩
    | ok x2 =>
      rw [residualizeLoop, hstep]
      rcases List.mem_cons.mp hc with rfl | hc2
      · rw [residualizeStep, hmiss] at hstep
        exact absurd hstep (by simp)
      · exact ih x2 c hc2 hmiss

lemma residualizeLoop_no_regressors (covs : Option QTable) (n : String) (rest : List String)
    (x : QTable) :
    residualizeLoop [] covs (n :: rest) x = (x, some .attributeError) := by
  rw [residualizeLoop]
  rfl

/-- C5 as stated is false about the exception it names: an untrained
transform on a table with a column raises AttributeError (`dict.get`
returns None for the column and `.predict` is accessed on it), not
sklearn's NotFittedError, which this code never raises. -/
theorem transform_unfitted_attribute_error :
    ((CCState.init false).transform ⟨[("f1", [1, 2])]⟩).1 = .error .attributeError ∧
    (Except.error PyError.attributeError : Except PyError QTable) ≠
      .error .notFittedError := by
  refine ⟨rfl, ?_⟩
  simp

/-- C5 amended: whenever some column of `X` has no fitted regressor —
in particular on an untrained instance, whose regressor dict is empty,
as soon as `X` has a column — `transform` raises an error rather than
silently passing the column through or returning a result; the error is
the AttributeError from invoking `predict` on the missing (None)
regressor, not a NotFittedError. -/
theorem transform_missing_regressor_errors (st : CCState) (X : QTable) (c : String)
    (hc : c ∈ X.cols.map (fun p => p.1))
    (hmiss : st.regressors.find? (fun p => p.1 = c) = none) :
    (∀ t, (st.transform X).1 ≠ .ok t) ∧
    (st.regressors = [] → (st.transform X).1 = .error .attributeError) := by
  obtain ⟨e, he⟩ := residualizeLoop_error_of_missing st.regressors st.covariates
    (X.cols.map (fun p => p.1)) X c hc hmiss
  constructor
  · intro t ht
    simp only [CCState.transform] at ht
    rw [he] at ht
    simp at ht
  · intro hregs
    rcases hX : X.cols.map (fun p => p.1) with _ | ⟨n, rest⟩
    · rw [hX] at hc
      exact absurd hc (List.not_mem_nil c)
    · simp only [CCState.transform, hregs, hX, residualizeLoop_no_regressors]

theorem transform_missing_regressor_errors_witness :
    ((CCState.init true).transform ⟨[("a", [1]), ("b", [2])]⟩).1 = .error .attributeError :=
  (transform_missing_regressor_errors (CCState.init true) ⟨[("a", [1]), ("b", [2])]⟩ "a"
    (by decide) rfl).2 rfl

lemma rows_length (t : QTable) : t.rows.length = t.numRows := by
  simp [QTable.rows]

lemma lookup_cons (c : String × List ℚ) (cols : List (String × List ℚ)) (n : String) :
    QTable.lookup ⟨c :: cols⟩ n =
      if c.1 = n then some c.2 else QTable.lookup ⟨cols⟩ n := by
  by_cases h : c.1 = n
  · rw [if_pos h, QTable.lookup, List.find?_cons_of_pos _ (by simp [h])]
    rfl
  · rw [if_neg h, QTable.lookup, List.find?_cons_of_neg _ (by simp [h])]
    rfl

lemma setCol_cons_ne (c : String × List ℚ) (cols : List (String × List ℚ)) (n : String)
    (w : List ℚ) (h : c.1 ≠ n) :
    QTable.setCol ⟨c :: cols⟩ n w = ⟨c :: (QTable.setCol ⟨cols⟩ n w).cols⟩ := by
  simp [QTable.setCol, h]

lemma setCol_head_fresh (c : String) (v w : List ℚ) (cols : List (String × List ℚ))
    (h : ∀ p ∈ cols, p.1 ≠ c) :
    QTable.setCol ⟨(c, v) :: cols⟩ c w = ⟨(c, w) :: cols⟩ := by
  have hmap : cols.map (fun p => if p.1 = c then (p.1, w) else p) = cols :=
    calc cols.map (fun p => if p.1 = c then (p.1, w) else p) = cols.map id :=
          List.map_congr_left (fun p hp => by simp [h p hp])
      _ = cols := List.map_id cols
  simp [QTable.setCol, hmap]

lemma residualizeStep_cons_ne (regs : List (String × Model)) (covs : Option QTable)
    (c : String) (w : List ℚ) (cols : List (String × List ℚ)) (n : String) (h : c ≠ n) :
    residualizeStep regs covs ⟨(c, w) :: cols⟩ n =
      (residualizeStep regs covs ⟨cols⟩ n).map (fun x2 => ⟨(c, w) :: x2.cols⟩) := by
  rw [residualizeStep, residualizeStep]
  cases hf : regs.find? (fun p => p.1 = n) with
  | none => rfl
  | some m =>
    cases covs with
    | none => rfl
    | some cov =>
      dsimp only
      rw [lookup_cons]
      rw [if_neg h]
      by_cases hl : ((QTable.lookup ⟨cols⟩ n).getD []).length = (cov.rows.map m.2).length
      · rw [if_pos hl, if_pos hl, setCol_cons_ne (c, w) cols n _ h]
        rfl
      · rw [if_neg hl, if_neg hl]
        rfl

lemma residualizeLoop_frame (regs : List (String × Model)) (covs : Option QTable)
    (c : String) (w : List ℚ) :
    ∀ (names : List String) (cols : List (String × List ℚ)), c ∉ names →
      residualizeLoop regs covs names ⟨(c, w) :: cols⟩ =
        (⟨(c, w) :: (residualizeLoop regs covs names ⟨cols⟩).1.cols⟩,
         (residualizeLoop regs covs names ⟨cols⟩).2) := by
  intro names
  induction names with
  | nil => intro cols _; rfl
  | cons n rest ih =>
    intro cols hcn
    have hne : c ≠ n := fun hh => hcn (by rw [hh]; exact List.mem_cons_self n rest)
    have hrest : c ∉ rest := fun hh => hcn (List.mem_cons_of_mem n hh)
    rw [residualizeLoop, residualizeLoop, residualizeStep_cons_ne regs covs c w cols n hne]
    cases hstep : residualizeStep regs covs ⟨cols⟩ n with
    | error e => rfl
    | ok x2 => exact ih x2.cols hrest

lemma residualizeLoop_main (regs : List (String × Model)) (y : QTable)
    (mdl : String × List ℚ → Model) :
    ∀ cols : List (String × List ℚ),
      (cols.map (fun p => p.1)).Nodup →
      (∀ p ∈ cols, regs.find? (fun q => q.1 = p.1) = some (p.1, mdl p)) →
      (∀ p ∈ cols, p.2.length = y.rows.length) →
      residualizeLoop regs (some y) (cols.map (fun p => p.1)) ⟨cols⟩ =
        (⟨cols.map (fun p =>
           (p.1, List.zipWith (fun a b => a - b) p.2 (y.rows.map (mdl p))))⟩, none) := by
  intro cols
  induction cols with
  | nil => intro _ _ _; rfl
  | cons p0 cols ih =>
    rcases p0 with ⟨c, v⟩
    intro hnd hfind hlen
    have hndc : ((c, v).1 :: cols.map (fun p => p.1)).Nodup := by
      rw [← List.map_cons]
      exact hnd
    have hnd2 := List.nodup_cons.mp hndc
    have hfresh : ∀ q ∈ cols, q.1 ≠ c := by
      intro q hq heq
      exact hnd2.1 (List.mem_map.mpr ⟨q, hq, heq⟩)
    have hstep : residualizeStep regs (some y) ⟨(c, v) :: cols⟩ c =
        .ok ⟨(c, List.zipWith (fun a b => a - b) v (y.rows.map (mdl (c, v)))) :: cols⟩ := by
      rw [residualizeStep, hfind (c, v) (List.mem_cons_self _ _)]
      dsimp only
      rw [lookup_cons, if_pos rfl]
      dsimp only
      rw [if_pos (by rw [List.length_map]; exact hlen (c, v) (List.mem_cons_self _ _)),
        setCol_head_fresh c v _ cols hfresh]
      rfl
    rw [List.map_cons, residualizeLoop, hstep]
    have hcnotmem : c ∉ cols.map (fun p => p.1) := hnd2.1
    dsimp only
    rw [residualizeLoop_frame regs (some y) c _ (cols.map (fun p => p.1)) cols hcnotmem]
    rw [ih hnd2.2 (fun q hq => hfind q (List.mem_cons_of_mem _ hq))
      (fun q hq => hlen q (List.mem_cons_of_mem _ hq))]
    rfl

lemma find?_fitted (fitF : FitFn) (yrows : List (List ℚ)) (n : String) :
    ∀ cols : List (String × List ℚ),
      (cols.map (fun c => (c.1, fitF yrows c.2))).find? (fun q => q.1 = n) =
        (cols.find? (fun c => c.1 = n)).map (fun c => (c.1, fitF yrows c.2)) := by
  intro cols
  induction cols with
  | nil => rfl
  | cons c cols ih =>
    by_cases h : c.1 = n
    · rw [List.map_cons, List.find?_cons_of_pos _ (by simp [h]),
        List.find?_cons_of_pos _ (by simp [h])]
      rfl
    · rw [List.map_cons, List.find?_cons_of_neg _ (by simp [h]),
        List.find?_cons_of_neg _ (by simp [h]), ih]

lemma find?_eq_self_of_nodup :
    ∀ cols : List (String × List ℚ), (cols.map (fun p => p.1)).Nodup →
      ∀ p ∈ cols, cols.find? (fun q => q.1 = p.1) = some p := by
  intro cols
  induction cols with
  | nil =>
    intro _ p hp
    exact absurd hp (List.not_mem_nil p)
  | cons c cols ih =>
    intro hnd p hp
    have hndc : (c.1 :: cols.map (fun p => p.1)).Nodup := by
      rw [← List.map_cons]
      exact hnd
    have hnd2 := List.nodup_cons.mp hndc
    rcases List.mem_cons.mp hp with rfl | hp2
    · rw [List.find?_cons_of_pos _ (by simp)]
    · have hne : c.1 ≠ p.1 := by
        intro heq
        exact hnd2.1 (by rw [heq]; exact List.mem_map_of_mem _ hp2)
      rw [List.find?_cons_of_neg _ (by simp [hne])]
      exact ih hnd2.2 p hp2

lemma zipWith_getD_sub (v : List ℚ) :
    List.zipWith (fun a b => a - b) v ((List.range v.length).map (fun i => v.getD i 0)) =
      List.replicate v.length 0 := by
  induction v with
  | nil => rfl
  | cons a l ih =>
    rw [List.length_cons, List.range_succ_eq_map, List.map_cons, List.map_map]
    have hcomp : (List.range l.length).map ((fun i => (a :: l).getD i 0) ∘ Nat.succ) =
        (List.range l.length).map (fun i => l.getD i 0) :=
      List.map_congr_left (fun i _ => by simp [List.getD_cons_succ])
    rw [hcomp, List.zipWith_cons_cons, ih, List.replicate_succ]
    simp

/-- C8: on a fitted transformer, `transform` replaces each column `c` of
an input whose columns are all fitted (with distinct names and the row
count of the stored covariates) by `X[c] - predict(regressor[c],
stored_covariates)`: the predictions are evaluated on the covariate table
captured at fit time — `transform` takes no covariate argument at all —
and no rescaling is applied.  Consequently, when the transformer was
fitted with `y = X` and the external fitting routine is exact at its own
training points (as ordinary least squares is whenever the target is a
linear function of the covariates, in particular a covariate column
itself), transforming `X` yields a residual of 0 in every cell. -/
theorem transform_residualizes (fitF : FitFn) (inl : Bool) (X y Z : QTable)
    (hr : X.numRows = y.numRows)
    (hnames : ∀ n ∈ Z.cols.map (fun p => p.1), n ∈ X.cols.map (fun p => p.1))
    (hnodup : (Z.cols.map (fun p => p.1)).Nodup)
    (hlen : ∀ p ∈ Z.cols, p.2.length = y.rows.length) :
    (((CCState.fit fitF (CCState.init inl) X y).2).transform Z).1 =
      .ok ⟨Z.cols.map (fun p =>
        (p.1, List.zipWith (fun a b => a - b) p.2
          (y.rows.map (fitF y.rows ((X.lookup p.1).getD [])))))⟩ ∧
    (Z = X →
      (∀ p ∈ X.cols, ∀ i < y.numRows, fitF y.rows p.2 (y.row i) = p.2.getD i 0) →
      (((CCState.fit fitF (CCState.init inl) X y).2).transform Z).1 =
        .ok ⟨X.cols.map (fun p => (p.1, List.replicate p.2.length 0))⟩) := by
  have hst : (CCState.fit fitF (CCState.init inl) X y).2 =
      ⟨inl, X.cols.map (fun c => (c.1, fitF y.rows c.2)), some y⟩ := by
    rw [CCState.fit, if_pos hr]
    rfl
  have hfind : ∀ p ∈ Z.cols,
      (X.cols.map (fun c => (c.1, fitF y.rows c.2))).find? (fun q => q.1 = p.1) =
        some (p.1, fitF y.rows ((X.lookup p.1).getD [])) := by
    intro p hp
    have hmem : p.1 ∈ X.cols.map (fun q => q.1) := hnames p.1 (List.mem_map_of_mem _ hp)
    obtain ⟨c0, hc0mem, hc0p⟩ := List.mem_map.mp hmem
    have hiss : (X.cols.find? (fun c => c.1 = p.1)).isSome :=
      List.find?_isSome.mpr ⟨c0, hc0mem, by simp [hc0p]⟩
    obtain ⟨c1, hc1⟩ := Option.isSome_iff_exists.mp hiss
    have hc1p : c1.1 = p.1 := by simpa using List.find?_some hc1
    have hlk : X.lookup p.1 = some c1.2 := by
      rw [QTable.lookup, hc1]
      rfl
    rw [find?_fitted, hc1, hlk]
    simp [hc1p]
  obtain ⟨zcols⟩ := Z
  have ha : ((⟨inl, X.cols.map (fun c => (c.1, fitF y.rows c.2)),
        some y⟩ : CCState).transform ⟨zcols⟩).1 =
      .ok ⟨zcols.map (fun p =>
        (p.1, List.zipWith (fun a b => a - b) p.2
          (y.rows.map (fitF y.rows ((X.lookup p.1).getD [])))))⟩ := by
    simp only [CCState.transform]
    rw [residualizeLoop_main (X.cols.map (fun c => (c.1, fitF y.rows c.2))) y
      (fun p => fitF y.rows ((X.lookup p.1).getD [])) zcols hnodup hfind hlen]
  constructor
  · rw [hst]
    exact ha
  · intro hZX hfit
    rw [hst, ha]
    have hXcols : X.cols = zcols := by rw [← hZX]
    rw [← hXcols]
    congr 1
    refine congrArg QTable.mk (List.map_congr_left ?_)
    intro p hp
    have hnodupX : (X.cols.map (fun p => p.1)).Nodup := by
      rw [hXcols]
      exact hnodup
    have hlk : X.lookup p.1 = some p.2 := by
      rw [QTable.lookup, find?_eq_self_of_nodup X.cols hnodupX p hp]
      rfl
    rw [hlk, Option.getD_some]
    have hpz : p ∈ zcols := by
      rw [← hXcols]
      exact hp
    have hvlen : p.2.length = y.numRows := by
      rw [hlen p hpz, rows_length]
    set m := fitF y.rows p.2 with hm
    have hpred : y.rows.map m = (List.range y.numRows).map (fun i => p.2.getD i 0) := by
      rw [QTable.rows, List.map_map]
      exact List.map_congr_left (fun i hi => by
        rw [hm]
        exact hfit p hp i (List.mem_range.mp hi))
    rw [hpred, ← hvlen, zipWith_getD_sub]

theorem transform_residualizes_witness :
    (((CCState.fit fit0 (CCState.init false) ⟨[("f", [1, 2])]⟩ ⟨[("f", [1, 2])]⟩).2).transform
        ⟨[("f", [1, 2])]⟩).1 =
      .ok ⟨[("f", List.replicate 2 0)]⟩ :=
  (transform_residualizes fit0 false ⟨[("f", [1, 2])]⟩ ⟨[("f", [1, 2])]⟩ ⟨[("f", [1, 2])]⟩
    (by decide) (by decide) (by decide) (by decide)).2 rfl (by decide)

end Workbench
